import Mathlib

/-!
# Verification of the maman14 macro pre-assembler

This file gives a shallow embedding of the macro-expansion stage of the
maman14 assembler.  The repository contains two divergent drafts of the
pre-assembler:

* draft A, the file `src/pre_assembler.c` (two file passes, a growable
  array of macros, output opened only after an error-free first pass);
* draft B, appended to `src/main.c` after `main` under the banner
  "pre_assembler copy.c" (a single pass, a linked list of macros, the
  output file opened lazily at the first emitted line and deleted at the
  end when any error was reported).

Both drafts are embedded faithfully, each in its own namespace
(`PreAsm` for draft A, `MainC` for draft B).  Lines are modelled as
`List Char`; the `fgets` buffered reading (at most 81 characters per
read, stopping after a newline) is modelled by `fgets_split`.  The word
"macro" is spelled `mcro` in identifiers, matching the directive
keyword of the language.

C `NULL` pointers are modelled with `Option`; machine I/O failures
(fopen/remove failing) are outside the model, which assumes a fresh
file system per run.
-/

set_option maxRecDepth 8000

/-- MAX_LINE_LENGTH from `src/definitions.h`. -/
def MAX_LINE_LENGTH : Nat := 80

/-- MAX_LABEL_LENGTH from `src/definitions.h`. -/
def MAX_LABEL_LENGTH : Nat := 30

/-- Error kinds, from the `ErrorType` enumeration in `src/error_handler.h`
(only the kinds the pre-assembler can raise).  Renamed constructors:
`mcroDefnMalformed` is ERROR_MACRO_DEFINITION_SYNTAX, `genericMalformed`
is ERROR_GENERIC_SYNTAX_ERROR, `labelRedef` is ERROR_LABEL_REDEFINITION,
`emptyFile` is ERROR_EMPTY_OR_COMMENT_FILE. -/
inductive ErrKind where
  | fileOpenFailed
  | lineTooLong
  | emptyFile
  | mcroNameReserved
  | mcroNameBadFormat
  | mcroDefnMalformed
  | nestedMcroDef
  | unexpectedMcroEnd
  | unclosedMcroDef
  | labelRedef
  | genericMalformed
  | internalErr
deriving DecidableEq, Repr

/-- is_whitespace from `src/utils.c`: the C `isspace` set
(space, tab, newline, carriage return, vertical tab, form feed). -/
def is_whitespace (c : Char) : Bool :=
  c == ' ' || c == '\t' || c == '\n' || c == '\r' ||
  c == Char.ofNat 11 || c == Char.ofNat 12

/-- is_alpha from `src/utils.c` (C-locale `isalpha`, ASCII letters). -/
def is_alpha (c : Char) : Bool := c.isAlpha

/-- is_alphanumeric from `src/utils.c`: `isalnum` extended with underscore. -/
def is_alphanumeric (c : Char) : Bool := c.isAlphanum || c == '_'

/-- skip_whitespace from `src/utils.c`. -/
def skip_whitespace (s : List Char) : List Char := s.dropWhile is_whitespace

/-- trim_whitespace from `src/utils.c`: drop leading whitespace, then
trailing whitespace (an all-whitespace string becomes empty). -/
def trim_whitespace (s : List Char) : List Char :=
  ((s.dropWhile is_whitespace).reverse.dropWhile is_whitespace).reverse

/-- is_empty_or_comment_line from `src/utils.c`. -/
def is_empty_or_comment_line (s : List Char) : Bool :=
  let t := s.dropWhile is_whitespace
  t.isEmpty || t.head? == some ';'

/-- The reserved words of `src/utils.c`: 16 opcodes, 5 directives,
8 registers.  Note that the directive keywords `mcro` and `mcroend` are
NOT in these tables. -/
def reserved_words : List (List Char) :=
  (["mov", "cmp", "add", "sub", "not", "clr", "lea", "inc",
    "dec", "jmp", "bne", "red", "prn", "jsr", "rts", "stop",
    ".data", ".string", ".mat", ".entry", ".extern",
    "r0", "r1", "r2", "r3", "r4", "r5", "r6", "r7"]).map String.toList

/-- is_reserved_keyword from `src/utils.c`. -/
def is_reserved_keyword (s : List Char) : Bool :=
  reserved_words.any (fun k => k == s)

/-- is_legal_label from `src/utils.c`. -/
def is_legal_label (s : List Char) : Bool :=
  match s with
  | [] => false
  | c :: rest =>
    if !is_alpha c then false
    else if !rest.all is_alphanumeric then false
    else if s.length > MAX_LABEL_LENGTH then false
    else if is_reserved_keyword s then false
    else true

/-- One `fgets(buf, n+1, f)` call on the remaining raw text: read at most
`n` characters, stopping after the first newline.  Returns the chunk read
and the remaining text. -/
def fgets_take : Nat → List Char → List Char × List Char
  | 0, s => ([], s)
  | _ + 1, [] => ([], [])
  | n + 1, c :: rest =>
    if c == '\n' then ([c], rest)
    else
      let p := fgets_take n rest
      (c :: p.1, p.2)

/-- Repeated `fgets` with an 82-byte buffer (81 characters per read),
driven by a fuel argument. -/
def fgets_split_fuel : Nat → List Char → List (List Char)
  | 0, _ => []
  | _ + 1, [] => []
  | n + 1, c :: rest =>
    let p := fgets_take 81 (c :: rest)
    p.1 :: fgets_split_fuel n p.2

/-- The chunk sequence the `while (fgets(...))` loops of both drafts see
for a given raw input text. -/
def fgets_split (s : List Char) : List (List Char) :=
  fgets_split_fuel s.length s

/-- find_macro of `src/pre_assembler.c` / find_macro_in_list of
`src/main.c`: first entry in the table with the given name. -/
def find_mcro (tbl : List (List Char × List Char)) (name : List Char) :
    Option (List Char × List Char) :=
  tbl.find? (fun e => e.1 == name)

namespace PreAsm

/-! ## Draft A: `src/pre_assembler.c` -/

/-- is_valid_macro_name from `src/pre_assembler.c` lines 94-133. -/
def is_valid_mcro_name (s : List Char) : Bool :=
  match s with
  | [] => false
  | c :: _ =>
    if s.length > MAX_LABEL_LENGTH then false
    else if c == '_' then false
    else if !is_alpha c then false
    else if !s.all is_alphanumeric then false
    else if is_reserved_keyword s then false
    else true

/-- extract_macro_name from `src/pre_assembler.c` lines 142-196.
The line is first truncated to MAX_LINE_LENGTH characters (strncpy into
`line_copy`) and trimmed; the test for the start keyword is a plain
4-character `strncmp`, i.e. a prefix test. -/
def extract_mcro_name (line : List Char) (buffer_size : Nat) :
    Option (List Char) :=
  let t := trim_whitespace (line.take MAX_LINE_LENGTH)
  if t.take 4 == "mcro".toList then
    let rest := skip_whitespace (t.drop 4)
    let name := rest.takeWhile (fun c => !is_whitespace c)
    if name.isEmpty then none
    else if name.length ≥ MAX_LABEL_LENGTH + 1 then none
    else
      let after := skip_whitespace (rest.drop name.length)
      if after.isEmpty || after.head? == some ';' then
        if name.length ≥ buffer_size then none else some name
      else none
  else none

/-- is_macro_definition_end from `src/pre_assembler.c` lines 257-281
(the non-NULL path): trimmed line starts with the 7 characters
`mcroend` and is followed only by whitespace or a comment. -/
def is_mcro_definition_end_line (line : List Char) : Bool :=
  let t := trim_whitespace (line.take MAX_LINE_LENGTH)
  if t.take 7 == "mcroend".toList then
    let r := skip_whitespace (t.drop 7)
    r.isEmpty || r.head? == some ';'
  else false

/-- is_macro_call from `src/pre_assembler.c` lines 203-245: skip an
optional label (everything through the first colon), take the first
token, and look it up in the table. -/
def is_mcro_call (tbl : List (List Char × List Char)) (line : List Char) :
    Option (List Char) :=
  let t := trim_whitespace (line.take MAX_LINE_LENGTH)
  let t2 := match t.findIdx? (fun c => c == ':') with
    | some i => skip_whitespace (t.drop (i + 1))
    | none => t
  let token := t2.takeWhile (fun c => !is_whitespace c)
  if token.isEmpty then none
  else if token.length > MAX_LABEL_LENGTH then none
  else match find_mcro tbl token with
    | some e => some e.1
    | none => none

/-- State of the first pass of `process_pre_assembly_for_file`
(`src/pre_assembler.c` lines 283-383). -/
structure ScanSt where
  inDef : Bool
  curName : List Char
  body : List Char
  tbl : List (List Char × List Char)
  errs : List (Nat × ErrKind)
deriving DecidableEq, Repr

/-- One loop iteration of the first pass (lines 315-383): the length
check, then the start check (which fills `current_macro_name` whenever
extraction succeeds, before validity is examined), then the end check
(which stores the macro only when the collected body is non-empty),
then body collection. -/
def pass1_step (st : ScanSt) (n : Nat) (l : List Char) : ScanSt :=
  if l.length > MAX_LINE_LENGTH + 1 then
    { st with errs := st.errs ++ [(n, ErrKind.lineTooLong)] }
  else match extract_mcro_name l (MAX_LABEL_LENGTH + 1) with
  | some name =>
    if !is_valid_mcro_name name then
      if is_reserved_keyword name then
        { st with curName := name,
                  errs := st.errs ++ [(n, ErrKind.mcroNameReserved)] }
      else
        { st with curName := name,
                  errs := st.errs ++ [(n, ErrKind.mcroNameBadFormat)] }
    else if (find_mcro st.tbl name).isSome then
      { st with curName := name,
                errs := st.errs ++ [(n, ErrKind.labelRedef)] }
    else
      { st with curName := name, inDef := true, body := [] }
  | none =>
    if is_mcro_definition_end_line l then
      { st with
          tbl := if st.body.isEmpty then st.tbl
                 else st.tbl ++ [(st.curName, st.body)],
          inDef := false, body := [] }
    else if st.inDef then { st with body := st.body ++ l }
    else st

def pass1_go : ScanSt → Nat → List (List Char) → ScanSt
  | st, _, [] => st
  | st, n, l :: ls => pass1_go (pass1_step st n l) (n + 1) ls

def pass1 (lines : List (List Char)) : ScanSt :=
  pass1_go ⟨false, [], [], [], []⟩ 1 lines

/-- State of the second pass (lines 403-460). -/
structure OutSt where
  inDef : Bool
  out : List Char
deriving DecidableEq, Repr

/-- One loop iteration of the second pass (lines 416-460): start lines
and end lines are skipped, definition bodies are skipped, macro calls
are replaced by the stored body (preserving a label prefix up to the
first colon of the raw line), and every other line is copied verbatim. -/
def pass2_step (tbl : List (List Char × List Char)) (st : OutSt)
    (l : List Char) : OutSt :=
  if (extract_mcro_name l (MAX_LABEL_LENGTH + 1)).isSome then
    { st with inDef := true }
  else if is_mcro_definition_end_line l then { st with inDef := false }
  else if st.inDef then st
  else match is_mcro_call tbl l with
    | some name =>
      match find_mcro tbl name with
      | some e =>
        match l.findIdx? (fun c => c == ':') with
        | some i => { st with out := st.out ++ l.take (i + 1) ++ e.2 }
        | none => { st with out := st.out ++ e.2 }
      | none => st
    | none => { st with out := st.out ++ l }

def pass2 (tbl : List (List Char × List Char)) (lines : List (List Char)) :
    OutSt :=
  lines.foldl (pass2_step tbl) ⟨false, []⟩

/-- Result of `process_pre_assembly_for_file` of `src/pre_assembler.c`:
the first-pass errors and table, whether the first pass ended inside a
definition, the persisted `.am` file (`none` when not created), and the
return value. -/
structure RunResult where
  errs : List (Nat × ErrKind)
  tbl : List (List Char × List Char)
  inDefAtEof : Bool
  am : Option (List Char)
  success : Bool
deriving DecidableEq, Repr

/-- process_pre_assembly_for_file from `src/pre_assembler.c` lines
283-473: first pass collects macros and errors; the output file is
created only when the first pass reported no error (lines 393-401); the
second pass writes the expansion; the return value is
`!has_errors_in_file && !has_errors()`, which in this draft reduce to
the same flag. -/
def run (raw : List Char) : RunResult :=
  let chunks := fgets_split raw
  let s1 := pass1 chunks
  let o := pass2 s1.tbl chunks
  { errs := s1.errs, tbl := s1.tbl, inDefAtEof := s1.inDef,
    am := if s1.errs.isEmpty then some o.out else none,
    success := s1.errs.isEmpty }

/-- Public is_macro_definition_start from `src/pre_assembler.c` lines
249-255, with C `NULL` modelled as `none` for the line and a Boolean
for the presence of the name buffer.  The third component records the
errors the call reports (this function has no access to the diagnostics
sink or the macro table, so it can report and mutate nothing). -/
def is_mcro_definition_start_c (line : Option (List Char))
    (buffer_ok : Bool) (buffer_size : Nat) :
    Bool × Option (List Char) × List ErrKind :=
  match line with
  | none => (false, none, [])
  | some l =>
    if !buffer_ok then (false, none, [])
    else match extract_mcro_name l buffer_size with
      | some n => (true, some n, [])
      | none => (false, none, [])

/-- Public is_macro_definition_end from `src/pre_assembler.c` lines
257-281, with C `NULL` modelled as `none`. -/
def is_mcro_definition_end_c (line : Option (List Char)) : Bool :=
  match line with
  | none => false
  | some l => is_mcro_definition_end_line l

end PreAsm

namespace MainC

/-! ## Draft B: the "pre_assembler copy.c" draft appended to `src/main.c` -/

/-- The `strtok(..., " \t\n\r")` delimiter set used throughout draft B. -/
def delimB (c : Char) : Bool :=
  c == ' ' || c == '\t' || c == '\n' || c == '\r'

/-- First `strtok` token of a string. -/
def tok1 (s : List Char) : List Char :=
  (s.dropWhile delimB).takeWhile (fun c => !delimB c)

/-- Remainder after the first token. -/
def after_tok1 (s : List Char) : List Char :=
  let d := s.dropWhile delimB
  d.drop (d.takeWhile (fun c => !delimB c)).length

/-- Second `strtok` token of a string. -/
def tok2 (s : List Char) : List Char := tok1 (after_tok1 s)

/-- The `trimmed_line` buffer of `src/main.c` lines 200-202: the line is
truncated to MAX_LINE_LENGTH characters, then `trim_whitespace` is
applied in place but its return value is discarded, so only the
trailing whitespace is actually removed (leading whitespace stays; an
all-whitespace string is left unchanged). -/
def trimmed_b (l : List Char) : List Char :=
  let u := l.take MAX_LINE_LENGTH
  if (u.dropWhile is_whitespace).isEmpty then u
  else (u.reverse.dropWhile is_whitespace).reverse

/-- is_macro_definition_end from `src/main.c` lines 448-475: first token
must be `mcroend`; a further non-comment token is reported as a
definition-syntax error and the line is rejected. -/
def end_check (t : List Char) : Bool × Option ErrKind :=
  if tok1 t == "mcroend".toList then
    let ex := tok2 t
    if ex.isEmpty then (true, none)
    else if ex.head? == some ';' then (true, none)
    else (false, some ErrKind.mcroDefnMalformed)
  else (false, none)

/-- Index of the first occurrence of `pat` as a contiguous sublist of
`s` (the `strstr` of `src/main.c` line 402). -/
def sublist_idx (pat : List Char) : List Char → Option Nat
  | [] => if pat.isPrefixOf ([] : List Char) then some 0 else none
  | c :: rest =>
    if pat.isPrefixOf (c :: rest) then some 0
    else (sublist_idx pat rest).map (· + 1)

/-- is_macro_definition_start from `src/main.c` lines 379-440, applied
(as in the scanner) to the trimmed line: first token must be exactly
`mcro`; the second token is the candidate name; the text after the
first `strstr` occurrence of the name must be only blanks up to end,
newline or comment; then legality, reservedness, and the (dead, see the
scanner) nesting check.  The second component lists the reported
errors. -/
def start_check (inDef : Bool) (t : List Char) :
    Option (List Char) × List ErrKind :=
  if tok1 t == "mcro".toList then
    let name := tok2 t
    if name.isEmpty then (none, [ErrKind.mcroDefnMalformed])
    else match sublist_idx name t with
      | none => (none, [ErrKind.internalErr])
      | some i =>
        let after := (t.drop (i + name.length)).dropWhile
          (fun c => c == ' ' || c == '\t')
        if after.isEmpty || after.head? == some '\n' ||
            after.head? == some ';' then
          if !is_legal_label name then (none, [ErrKind.mcroNameBadFormat])
          else if is_reserved_keyword name then
            (none, [ErrKind.mcroNameReserved])
          else if inDef then (none, [ErrKind.nestedMcroDef])
          else (some name, [])
        else (none, [ErrKind.mcroDefnMalformed])
  else (none, [])

/-- Append a captured body line to the macro currently being defined:
`g_current_macro` is the most recently appended list node. -/
def update_last : List (List Char × List Char) → List Char →
    List (List Char × List Char)
  | [], _ => []
  | [e], l => [(e.1, e.2 ++ l)]
  | e :: rest, l => e :: update_last rest l

/-- Scanner state of draft B's `process_pre_assembly_for_file`
(`src/main.c` lines 150-366): the definition flag, the macro list, the
reported errors, the substantive-content flag, whether the `.am` file
has been opened, and its current content. -/
structure StB where
  inDef : Bool
  tbl : List (List Char × List Char)
  errs : List (Nat × ErrKind)
  hasNonEmpty : Bool
  opened : Bool
  out : List Char
deriving DecidableEq, Repr

/-- Write a line (or expansion) to the `.am` file: draft B opens the
file lazily and writes only while no error has been reported yet. -/
def emit (st : StB) (l : List Char) : StB :=
  if st.errs.isEmpty then { st with opened := true, out := st.out ++ l }
  else st

/-- The classifier cascade of the not-in-definition branch after the
macro-call check failed (or reported a syntax error): the start check,
else verbatim copy (`src/main.c` lines 292-319). -/
def non_call (st : StB) (n : Nat) (t l : List Char) : StB :=
  match start_check st.inDef t with
  | (some name, _) =>
    { st with tbl := st.tbl ++ [(name, [])], inDef := true }
  | (none, es) =>
    let st := { st with errs := st.errs ++ es.map (fun k => (n, k)) }
    emit st l

/-- One iteration of draft B's scanning loop (`src/main.c` lines
189-322): length check; unexpected-`mcroend` check; skip-or-copy of
blank and comment lines; body capture inside a definition; otherwise
macro-call check (with the extra-token syntax error), then the
start-line check, then verbatim copy. -/
def step (st : StB) (n : Nat) (l : List Char) : StB :=
  if l.length > MAX_LINE_LENGTH &&
      l.getD MAX_LINE_LENGTH 'a' != '\n' &&
      l.getD MAX_LINE_LENGTH 'a' != Char.ofNat 0 then
    { st with errs := st.errs ++ [(n, ErrKind.lineTooLong)] }
  else
    let t := trimmed_b l
    if st.inDef then
      let e := end_check t
      let st := match e.2 with
        | some k => { st with errs := st.errs ++ [(n, k)] }
        | none => st
      if e.1 then { st with inDef := false }
      else { st with tbl := update_last st.tbl l }
    else
      let e := end_check t
      let st := match e.2 with
        | some k => { st with errs := st.errs ++ [(n, k)] }
        | none => st
      let st := if e.1 then
          { st with errs := st.errs ++ [(n, ErrKind.unexpectedMcroEnd)] }
        else st
      if is_empty_or_comment_line t then emit st l
      else
        let st := { st with hasNonEmpty := true }
        let ft := tok1 t
        match (if ft.isEmpty then none else find_mcro st.tbl ft) with
        | some e2 =>
          let ex := tok2 t
          if !ex.isEmpty && ex.head? != some ';' then
            let st := { st with
              errs := st.errs ++ [(n, ErrKind.genericMalformed)] }
            non_call st n t l
          else emit st e2.2
        | none => non_call st n t l

def run_go : StB → Nat → List (List Char) → StB × Nat
  | st, n, [] => (st, n)
  | st, n, l :: ls => run_go (step st (n + 1) l) (n + 1) ls

/-- Result of draft B's `process_pre_assembly_for_file`. -/
structure RunResultB where
  errs : List (Nat × ErrKind)
  tbl : List (List Char × List Char)
  am : Option (List Char)
  success : Bool
deriving DecidableEq, Repr

/-- process_pre_assembly_for_file from `src/main.c` lines 150-366: the
single scanning pass, then the unclosed-definition check (line 324) and
the empty-file check (line 331); if any error was reported the `.am`
file, when it was opened, is removed (lines 339-356); the `.am` file
exists only when it was lazily opened by some emitted line. -/
def run (raw : List Char) : RunResultB :=
  let p := run_go ⟨false, [], [], false, false, []⟩ 0 (fgets_split raw)
  let st := p.1
  let st := if st.inDef then
      { st with errs := st.errs ++ [(p.2, ErrKind.unclosedMcroDef)] }
    else st
  let st := if !st.hasNonEmpty then
      { st with errs := st.errs ++ [(0, ErrKind.emptyFile)] }
    else st
  { errs := st.errs, tbl := st.tbl,
    am := if st.errs.isEmpty then
        (if st.opened then some st.out else none)
      else none,
    success := st.errs.isEmpty }

end MainC

/-! ## Claim theorems -/

/-- Claim C1 (evaluated at the failing input): on the input file
`mcro A` / `body` / `mcroend` — a clean run whose expansion is the
empty text — the `main.c` draft reports no error and returns success,
yet persists no `.am` file at all (the lazily opened output is never
created), contradicting the claim that a run with no reported errors
persists the complete expanded text; the `pre_assembler.c` draft does
persist the (empty) expansion.  The second group shows the deletion
side at a concrete erroneous input `x` / `mcroend`: the line `x` is
incrementally written, the stray `mcroend` raises an error, and the
already-written output is removed. -/
theorem C1_commit_policy_eval :
    (MainC.run ("mcro A\nbody\nmcroend\n".toList)).errs = [] ∧
    (MainC.run ("mcro A\nbody\nmcroend\n".toList)).success = true ∧
    (MainC.run ("mcro A\nbody\nmcroend\n".toList)).am = none ∧
    (PreAsm.run ("mcro A\nbody\nmcroend\n".toList)).errs = [] ∧
    (PreAsm.run ("mcro A\nbody\nmcroend\n".toList)).am = some [] ∧
    (MainC.run ("x\nmcroend\n".toList)).errs =
      [(2, ErrKind.unexpectedMcroEnd)] ∧
    (MainC.run ("x\nmcroend\n".toList)).am = none := by
  decide

/-- Claim C2 (evaluated at the spec's example input): on
`mcro FOO` / `add r1,r2` / `mcroend` / `FOO` the `main.c` draft
produces exactly `add r1,r2` + newline and succeeds, as the claim
states; but the `pre_assembler.c` draft, whose start classifier is a
plain `strncmp` prefix test so that `mcroend` is parsed as a definition
of a macro named `end`, never stores any macro and produces an EMPTY
`.am` file while still returning success. -/
theorem C2_example_expansion_eval :
    (MainC.run ("mcro FOO\nadd r1,r2\nmcroend\nFOO\n".toList)).am =
      some ("add r1,r2\n".toList) ∧
    (MainC.run ("mcro FOO\nadd r1,r2\nmcroend\nFOO\n".toList)).success
      = true ∧
    (MainC.run ("mcro FOO\nadd r1,r2\nmcroend\nFOO\n".toList)).errs
      = [] ∧
    (PreAsm.run ("mcro FOO\nadd r1,r2\nmcroend\nFOO\n".toList)).am =
      some [] ∧
    (PreAsm.run ("mcro FOO\nadd r1,r2\nmcroend\nFOO\n".toList)).success
      = true := by
  decide

/-- Claim C3 (evaluated at the failing input): on a file that ends
inside a macro definition (`mcro FOO` / `add r1,r2`, no `mcroend`) the
`main.c` draft reports UnclosedMacroDefinition at the last line,
retains no output and fails, as the claim states; the
`pre_assembler.c` draft has no end-of-input check at all: it reports
nothing, returns success, and persists an (empty) `.am` file even
though its scan ended still inside a definition. -/
theorem C3_unclosed_definition_eval :
    (MainC.run ("mcro FOO\nadd r1,r2\n".toList)).errs =
      [(2, ErrKind.unclosedMcroDef)] ∧
    (MainC.run ("mcro FOO\nadd r1,r2\n".toList)).am = none ∧
    (MainC.run ("mcro FOO\nadd r1,r2\n".toList)).success = false ∧
    (PreAsm.run ("mcro FOO\nadd r1,r2\n".toList)).errs = [] ∧
    (PreAsm.run ("mcro FOO\nadd r1,r2\n".toList)).inDefAtEof = true ∧
    (PreAsm.run ("mcro FOO\nadd r1,r2\n".toList)).success = true ∧
    (PreAsm.run ("mcro FOO\nadd r1,r2\n".toList)).am = some [] := by
  decide

/-- Claim C4 (evaluated at the failing input): on
`mcro A` / `x` / `mcroend` / `mcro A` / `y` / `mcroend` / `A` the
`main.c` draft has no redefinition check: it reports no error at all,
appends a SECOND entry named `A` to the table, and succeeds (lookup
happens to return the first entry, so the call expands to `x`).  The
`pre_assembler.c` draft also reports no redefinition error, because its
end classifier is shadowed by its prefix-matching start classifier, so
`add_macro` is dead code and its table is always empty. -/
theorem C4_redefinition_eval :
    (MainC.run
      ("mcro A\nx\nmcroend\nmcro A\ny\nmcroend\nA\n".toList)).errs
      = [] ∧
    (MainC.run
      ("mcro A\nx\nmcroend\nmcro A\ny\nmcroend\nA\n".toList)).tbl =
      [("A".toList, "x\n".toList), ("A".toList, "y\n".toList)] ∧
    (MainC.run
      ("mcro A\nx\nmcroend\nmcro A\ny\nmcroend\nA\n".toList)).am =
      some ("x\n".toList) ∧
    (MainC.run
      ("mcro A\nx\nmcroend\nmcro A\ny\nmcroend\nA\n".toList)).success
      = true ∧
    (PreAsm.run
      ("mcro A\nx\nmcroend\nmcro A\ny\nmcroend\nA\n".toList)).errs
      = [] ∧
    (PreAsm.run
      ("mcro A\nx\nmcroend\nmcro A\ny\nmcroend\nA\n".toList)).tbl
      = [] := by
  decide

/-- Claim C5 (evaluated at the failing input): on
`mcro FOO` / `mcro BAR` / `mcroend` / `FOO` neither draft reports a
nested-definition error.  The `main.c` draft silently captures the text
`mcro BAR` into FOO's body (its nested check inside
is_macro_definition_start is unreachable, because the scanner only
calls that classifier outside definitions) and the call to FOO then
outputs `mcro BAR`.  The `pre_assembler.c` draft silently abandons
FOO's definition and switches to defining BAR instead. -/
theorem C5_nested_definition_eval :
    (MainC.run ("mcro FOO\nmcro BAR\nmcroend\nFOO\n".toList)).errs
      = [] ∧
    (MainC.run ("mcro FOO\nmcro BAR\nmcroend\nFOO\n".toList)).tbl =
      [("FOO".toList, "mcro BAR\n".toList)] ∧
    (MainC.run ("mcro FOO\nmcro BAR\nmcroend\nFOO\n".toList)).am =
      some ("mcro BAR\n".toList) ∧
    (PreAsm.run ("mcro FOO\nmcro BAR\nmcroend\nFOO\n".toList)).errs
      = [] ∧
    (PreAsm.run ("mcro FOO\nmcro BAR\nmcroend\nFOO\n".toList)).am =
      some [] := by
  decide

/-- Claim C6 (evaluated at the failing input): the input
`mcrofoo` / `x` contains no macro definition (the first token of no
line is the keyword `mcro`) and is error-free, so the identity law
requires the output to equal the input.  The `main.c` draft does copy
it verbatim, but the `pre_assembler.c` draft prefix-matches `mcrofoo`
as a definition start named `foo` and emits an empty output while
returning success.  The last two conjuncts show the identity law
holding in both drafts on the plain input `FOO`. -/
theorem C6_identity_eval :
    (PreAsm.run ("mcrofoo\nx\n".toList)).errs = [] ∧
    (PreAsm.run ("mcrofoo\nx\n".toList)).success = true ∧
    (PreAsm.run ("mcrofoo\nx\n".toList)).am = some [] ∧
    (MainC.run ("mcrofoo\nx\n".toList)).errs = [] ∧
    (MainC.run ("mcrofoo\nx\n".toList)).am =
      some ("mcrofoo\nx\n".toList) ∧
    (PreAsm.run ("FOO\n".toList)).am = some ("FOO\n".toList) ∧
    (MainC.run ("FOO\n".toList)).am = some ("FOO\n".toList) := by
  decide

/-- Claim C8 (evaluated at the failing input): on `mcroend` / `x` the
`main.c` draft reports exactly one unexpected-end error for line 1,
emits nothing, and stays outside any definition, as the claim states;
the `pre_assembler.c` draft instead classifies the bare `mcroend` line
as a definition START (of a macro named `end`), reports nothing,
leaves the Scanning state, and returns success with an empty output. -/
theorem C8_unexpected_end_eval :
    (MainC.run ("mcroend\nx\n".toList)).errs =
      [(1, ErrKind.unexpectedMcroEnd)] ∧
    (MainC.run ("mcroend\nx\n".toList)).am = none ∧
    (MainC.run ("mcroend\nx\n".toList)).success = false ∧
    (PreAsm.run ("mcroend\nx\n".toList)).errs = [] ∧
    (PreAsm.run ("mcroend\nx\n".toList)).inDefAtEof = true ∧
    (PreAsm.run ("mcroend\nx\n".toList)).success = true ∧
    (PreAsm.run ("mcroend\nx\n".toList)).am = some [] := by
  decide

/-- Claim C9 (evaluated at the failing input): an 81-character line
followed by the line `x`.  The `main.c` draft reports LineTooLong for
line 1 and discards the output, as the claim states.  The
`pre_assembler.c` draft's length guard `strlen(line) > 81` can never
fire, because its own `fgets` buffer caps each read at 81 characters:
it reports nothing and copies the over-long content to the output
(split across reads), returning success. -/
theorem C9_line_too_long_eval :
    (PreAsm.run (List.replicate 81 'a' ++ '\n' :: 'x' :: ['\n'])).errs
      = [] ∧
    (PreAsm.run (List.replicate 81 'a' ++ '\n' :: 'x' :: ['\n'])).am =
      some (List.replicate 81 'a' ++ '\n' :: 'x' :: ['\n']) ∧
    (PreAsm.run
      (List.replicate 81 'a' ++ '\n' :: 'x' :: ['\n'])).success
      = true ∧
    (MainC.run (List.replicate 81 'a' ++ '\n' :: 'x' :: ['\n'])).errs
      = [(1, ErrKind.lineTooLong)] ∧
    (MainC.run (List.replicate 81 'a' ++ '\n' :: 'x' :: ['\n'])).am
      = none := by
  decide

/-- Claim C7 counterexample: the directive keywords `mcro` and
`mcroend` are NOT in the reserved-word tables of `src/utils.c`, and the
macro-name validator of `src/pre_assembler.c` ACCEPTS both of them,
contradicting the claim that they are reserved and never accepted as
macro names. -/
theorem C7_keywords_accepted :
    PreAsm.is_valid_mcro_name ("mcro".toList) = true ∧
    PreAsm.is_valid_mcro_name ("mcroend".toList) = true ∧
    is_reserved_keyword ("mcro".toList) = false ∧
    is_reserved_keyword ("mcroend".toList) = false := by
  decide

/-- Acceptance of a macro name in the words of the spec (amended for
claim C7): 1 to 30 characters, first character alphabetic, remaining
characters alphanumeric or underscore, not equal to any reserved
keyword — where the reserved keywords are exactly the 16 opcodes, the
5 directives and the 8 register names of `src/utils.c` (the directive
keywords `mcro` and `mcroend` are not among them). -/
def spec_mcro_name_ok (s : List Char) : Prop :=
  1 ≤ s.length ∧ s.length ≤ MAX_LABEL_LENGTH ∧
  (∃ c rest, s = c :: rest ∧ is_alpha c = true ∧
    ∀ x ∈ rest, is_alphanumeric x = true) ∧
  is_reserved_keyword s = false

/-- Alphabetic characters count as alphanumeric. -/
theorem is_alphanumeric_of_alpha {c : Char} (h : is_alpha c = true) :
    is_alphanumeric c = true := by
  have h' : c.isAlpha = true := h
  simp [is_alphanumeric, Char.isAlphanum, h']

/-- Claim C7 (amended): a string is accepted by the macro-name
validator of `src/pre_assembler.c` if and only if it has 1 to 30
characters, starts with an alphabetic character, continues with only
alphanumeric characters or underscores, and equals no reserved
keyword of the opcode/directive/register tables. -/
theorem C7_name_rule (s : List Char) :
    PreAsm.is_valid_mcro_name s = true ↔ spec_mcro_name_ok s := by
  cases s with
  | nil =>
    simp only [PreAsm.is_valid_mcro_name, spec_mcro_name_ok]
    simp
  | cons c rest =>
    simp only [PreAsm.is_valid_mcro_name]
    constructor
    · intro h
      split_ifs at h with h1 h2 h3 h4 h5
      · have halpha : is_alpha c = true := by
          cases hb : is_alpha c
          · exact absurd (by simp [hb] : (!is_alpha c) = true) h3
          · rfl
        have hall : (c :: rest).all is_alphanumeric = true := by
          cases hb : (c :: rest).all is_alphanumeric
          · exact absurd
              (by simp [hb] : (!(c :: rest).all is_alphanumeric) = true)
              h4
          · rfl
        have hres : is_reserved_keyword (c :: rest) = false := by
          cases hb : is_reserved_keyword (c :: rest)
          · rfl
          · exact absurd hb h5
        refine ⟨by simp, Nat.not_lt.mp h1, ⟨c, rest, rfl, halpha, ?_⟩,
          hres⟩
        intro x hx
        exact (List.all_eq_true.mp hall) x (List.mem_cons_of_mem c hx)
    · rintro ⟨-, hlen, ⟨c', rest', heq, halpha, hall⟩, hres⟩
      injection heq with he1 he2
      subst he1
      subst he2
      split_ifs with h1 h2 h3 h4 h5
      · exact absurd hlen (Nat.not_le.mpr h1)
      · exfalso
        have hc : c = '_' := eq_of_beq h2
        rw [hc] at halpha
        exact absurd halpha (by decide)
      · rw [halpha] at h3
        exact absurd h3 (by decide)
      · exfalso
        have hall' : (c :: rest).all is_alphanumeric = true := by
          rw [List.all_cons, is_alphanumeric_of_alpha halpha,
            List.all_eq_true.mpr hall]
          rfl
        rw [hall'] at h4
        exact absurd h4 (by decide)
      · rw [hres] at h5
        exact absurd h5 (by decide)
      · rfl

/-- Claim C10: the public classifiers of `src/pre_assembler.c` guard
their pointer arguments.  For every buffer size,
is_macro_definition_start returns FALSE when its line argument or its
name-buffer argument is NULL (filling no name and reporting no error —
the error component of the embedding is empty; the function takes no
macro table, so it can mutate none), and is_macro_definition_end
returns FALSE when its line argument is NULL. -/
theorem C10_null_guard (buffer_size : Nat) :
    PreAsm.is_mcro_definition_start_c none true buffer_size =
      (false, none, []) ∧
    PreAsm.is_mcro_definition_start_c none false buffer_size =
      (false, none, []) ∧
    (∀ l, PreAsm.is_mcro_definition_start_c (some l) false buffer_size =
      (false, none, [])) ∧
    PreAsm.is_mcro_definition_end_c none = false :=
  ⟨rfl, rfl, fun _ => rfl, rfl⟩
